import Mathlib

/-!
Shallow embedding of the claude-session-search MCP server's session log
parsing and aggregation engine (TypeScript sources under src/), together
with theorems settling the frozen claims about it.

Modelling conventions, used throughout:
* JS optional string fields (`timestamp?`, `gitBranch?`, `summary?`) are
  modelled as plain `String` with `""` standing for both `undefined` and the
  empty string: the code only ever tests their truthiness (`if (msg.timestamp)`,
  `summary || undefined`, `msg.timestamp || ''`), and `undefined` and `""` are
  both falsy and lead to identical outputs.
* One line of a session `.jsonl` file is `Option SessionMessage`: `none` models
  a blank line or a line whose `JSON.parse` fails (both are skipped silently).
* `new Date(s).getTime()` is modelled by `dateMillis`, which reads a decimal
  encoding of the instant; ISO-8601 instants are order-isomorphic to their
  millisecond values, and no claim depends on the parse beyond that order.
  The call-time clock `new Date()` is passed explicitly as a `now : Int`
  argument to the views that default an absent `until` bound to it.
* JS `Array.prototype.slice(offset, offset + limit)` with non-negative
  arguments is `(·.drop offset).take limit`; the handlers clamp both arguments
  to non-negative values before they reach the pagination code.
* Filesystem state is an explicit `ClaudeEnv` value: the list of project
  directories, each with its entries (file name, decoded lines, byte size).
  Root and per-entry read failures are not modelled; no claim depends on them.
-/

/-- Lowercasing of a string, modelling JS `String.prototype.toLowerCase`
(character-list based so that proofs and witnesses evaluate). -/
def lowerStr (s : String) : String :=
  String.mk (s.toList.map Char.toLower)

/-- Prefix test on strings, modelling JS `String.prototype.startsWith`. -/
def strStartsWith (s pre : String) : Bool :=
  pre.toList.isPrefixOf s.toList

/-- Suffix test on strings, modelling JS `String.prototype.endsWith`. -/
def strEndsWith (s suffixStr : String) : Bool :=
  suffixStr.toList.reverse.isPrefixOf s.toList.reverse

/-- Boolean prefix test on character lists. -/
def isPrefixL : List Char → List Char → Bool
  | [], _ => true
  | _ :: _, [] => false
  | a :: as, b :: bs => a == b && isPrefixL as bs

/-- Boolean substring test on character lists. -/
def containsSub : List Char → List Char → Bool
  | hay, pat =>
    match hay with
    | [] => pat.isEmpty
    | _ :: t => isPrefixL pat hay || containsSub t pat

/-- Substring containment, modelling JS `String.prototype.includes`. -/
def strContainsSub (s pat : String) : Bool :=
  containsSub s.toList pat.toList

/-- Prefix of the first `n` characters, modelling JS `substring(0, n)`
(character-list based so that proofs and witnesses evaluate). -/
def strTake (s : String) (n : Nat) : String :=
  String.mk (s.toList.take n)

/-- First index at which `pat` occurs in `hay`, modelling JS `indexOf`. -/
def indexOfSub : List Char → List Char → Option Nat
  | hay, pat =>
    match hay with
    | [] => if pat.isEmpty then some 0 else none
    | _ :: t => if isPrefixL pat hay then some 0 else (indexOfSub t pat).map (· + 1)

/-- Removal of the first occurrence of `pat`, modelling JS
`String.prototype.replace(pat, '')` with a string pattern. -/
def removeFirstSub (pat : List Char) : List Char → List Char
  | [] => []
  | a :: as =>
    if isPrefixL pat (a :: as) then (a :: as).drop pat.length
    else a :: removeFirstSub pat as

/-- Model of `file.replace('.jsonl', '')`: drop the first occurrence of
`.jsonl` from the file name. -/
def stripJsonl (s : String) : String :=
  String.mk (removeFirstSub ".jsonl".toList s.toList)

/-- Model of `new Date(s).getTime()` on the decimal-encoded instants used in
this development (ISO-8601 instants are order-isomorphic to their
millisecond values; no claim depends on more than that order). -/
def dateMillis (s : String) : Int :=
  if s.toList ≠ [] ∧ s.toList.all Char.isDigit then
    ((s.toList.foldl (fun n c => n * 10 + (c.toNat - 48)) 0 : Nat) : Int)
  else 0

/-- Increment of a key in a JS object used as a counter
(`obj[k] = (obj[k] || 0) + 1`): existing keys are updated in place, new keys
are appended, matching JS object key insertion order. -/
def bumpCount (l : List (String × Nat)) (k : String) : List (String × Nat) :=
  match l with
  | [] => [(k, 1)]
  | (a, n) :: rest => if a = k then (a, n + 1) :: rest else (a, n) :: bumpCount rest k

/-- Model of `Set.prototype.add`: append if absent (JS sets iterate in
insertion order). -/
def addUnique (l : List String) (x : String) : List String :=
  if x ∈ l then l else l ++ [x]

/-- Stable sort by a comparator-derived predicate, modelling the (stable) JS
`Array.prototype.sort`: `le a b` holds exactly when the JS comparator returns
a value `≤ 0` on `(a, b)`, and ties keep their original order. -/
def insertLe {α : Type} (le : α → α → Bool) (x : α) : List α → List α
  | [] => [x]
  | y :: ys => if le x y then x :: y :: ys else y :: insertLe le x ys

/-- Stable insertion sort driven by `insertLe`. -/
def stableSortBy {α : Type} (le : α → α → Bool) : List α → List α
  | [] => []
  | x :: xs => insertLe le x (stableSortBy le xs)

/-! ## Data model (src/types.ts) -/

/-- Record kinds of a session line (`SessionMessage.type` in src/types.ts).
`fileHistorySnapshot` also stands for any kind the views do not recognize. -/
inductive MsgType
  | user
  | assistant
  | summary
  | fileHistorySnapshot
deriving DecidableEq, Repr

/-- String form of a record kind, as it appears in the JSON. -/
def msgTypeStr : MsgType → String
  | .user => "user"
  | .assistant => "assistant"
  | .summary => "summary"
  | .fileHistorySnapshot => "file-history-snapshot"

/-- Opaque input map of a `tool_use` block, restricted to the fields the
engine reads (`""` models an absent field, see the module comment). -/
structure ToolInput where
  subagent_type : String := ""
  description : String := ""
  prompt : String := ""
  file_path : String := ""
  path : String := ""
  command : String := ""
deriving DecidableEq, Repr

/-- One element of a structured content array. `str` is a raw string element,
`text` a `{type:'text'}` block (`t = ""` models a missing/empty `text` field),
`toolUse` a `{type:'tool_use'}` block (`name = ""` models a missing name),
`other` any block with an unrecognized `type`. -/
inductive ContentBlock
  | str (s : String)
  | text (t : String)
  | toolUse (name : String) (input : ToolInput)
  | toolResult
  | other
deriving DecidableEq, Repr

/-- Polymorphic message content: a bare string or a block sequence. -/
inductive MessageContent
  | str (s : String)
  | blocks (bs : List ContentBlock)
deriving DecidableEq, Repr

/-- The `message` field of a user/assistant record. -/
structure Message where
  role : String := ""
  content : MessageContent
deriving DecidableEq, Repr

/-- One decoded line of a session file (src/types.ts `SessionMessage`),
restricted to the fields the engine reads. -/
structure SessionMessage where
  type : MsgType
  message : Option Message := none
  timestamp : String := ""
  gitBranch : String := ""
  summary : String := ""
deriving DecidableEq, Repr

/-- One physical line: `none` is a blank or structurally malformed line. -/
abbrev Line := Option SessionMessage

/-- A session file is its ordered list of lines. -/
abbrev SessionFile := List Line

/-- One directory entry of a project directory. -/
structure FileEntry where
  name : String
  lines : SessionFile
  size : Nat := 0
deriving DecidableEq, Repr

/-- One project directory under `<root>/projects`. -/
structure ProjectDir where
  dirName : String
  files : List FileEntry
deriving DecidableEq, Repr

/-- The filesystem state visible to the engine. -/
structure ClaudeEnv where
  projects : List ProjectDir
deriving DecidableEq, Repr

/-- Decoding of a project directory name: strip one leading dash, then
replace every remaining dash with a slash (the two chained `replace` calls
on `projectDir` in the source). -/
def decodeProjectPath (d : String) : String :=
  let cs :=
    match d.toList with
    | '-' :: rest => rest
    | cs => cs
  String.mk (cs.map fun c => if c = '-' then '/' else c)

/-- Lookup of a directory entry by exact file name; a `none` result models a
failing `stat`/`createReadStream` for that path. -/
def lookupFile (p : ProjectDir) (fname : String) : Option FileEntry :=
  p.files.find? (fun fe => fe.name = fname)

/-- Session-file filter used by every directory scan:
`file.endsWith('.jsonl') && !file.startsWith('agent-')`. -/
def isSessionFileName (name : String) : Bool :=
  strEndsWith name ".jsonl" && !(strStartsWith name "agent-")

/-! ## Content extractors -/

/-- Body of the `content.map(item => ...)` in `extractContentText`
(src/parsers/session-parser.ts): raw strings pass through, truthy `text`
blocks yield their text, `tool_use` blocks with a truthy name yield a
bracketed marker, `tool_result` blocks a fixed marker, all else `''`. -/
def blockTextLegacy : ContentBlock → String
  | .str s => s
  | .text t => t
  | .toolUse name _ => if name ≠ "" then "[Tool: " ++ name ++ "]" else ""
  | .toolResult => "[Tool Result]"
  | .other => ""

/-- The parser's `extractContentText` (src/parsers/session-parser.ts):
string passthrough; for a block array, map each block to its text
contribution, drop the falsy ones (`.filter(Boolean)`), join with newlines. -/
def extractContentText : MessageContent → String
  | .str s => s
  | .blocks bs => String.intercalate "\n" ((bs.map blockTextLegacy).filter (· ≠ ""))

/-- The search tool's own `extractContentText`
(src/tools/search-session-content.ts): like the parser's, but `tool_use` and
`tool_result` blocks contribute nothing. -/
def extractContentTextSearch : MessageContent → String
  | .str s => s
  | .blocks bs =>
    String.intercalate "\n"
      ((bs.map fun b =>
        match b with
        | .str s => s
        | .text t => t
        | _ => "").filter (· ≠ ""))

/-- The timeline tool's `extractTextContent` (src/tools/get-session-timeline.ts):
string passthrough; for a block array, keep only truthy `text` blocks, join
with single spaces, truncate to 150 characters. -/
def extractTextContent : MessageContent → String
  | .str s => s
  | .blocks bs =>
    strTake
      (String.intercalate " "
        (bs.filterMap fun b =>
          match b with
          | .text t => if t ≠ "" then some t else none
          | _ => none))
      150

/-- The shared tool-call extractor: blocks of kind `tool_use` give
`{name, input}` pairs in order, plain-string content gives `[]`. This is
`extractToolCallsFromContent` in src/parsers/session-parser.ts; the local
`extractToolCalls` of get-session-timeline.ts and compare-sessions.ts are
the same function (their `input || {}` is the all-defaults `ToolInput`). -/
def extractToolCallsFromContent : MessageContent → List (String × ToolInput)
  | .str _ => []
  | .blocks bs =>
    bs.filterMap fun b =>
      match b with
      | .toolUse n i => some (n, i)
      | _ => none

/-! ## Session Record Parser (src/parsers/session-parser.ts) -/

/-- Derived Session View record (src/types.ts `SessionInfo`). -/
structure SessionInfo where
  sessionId : String
  project : String
  summary : String := ""
  messageCount : Nat
  startedAt : String
  lastActivityAt : String
  sizeBytes : Nat
  gitBranch : String := ""
deriving DecidableEq, Repr

/-- Accumulator of the incremental fold shared by `getSessionInfo`,
`parseSessionFile` and the per-file loop of find-sessions-by-branch.ts
(those three loops are textually identical on these fields). -/
structure InfoAcc where
  messageCount : Nat := 0
  startedAt : String := ""
  lastActivityAt : String := ""
  summary : String := ""
  gitBranch : String := ""
deriving DecidableEq, Repr

/-- One loop iteration of `getSessionInfo`: user/assistant records bump the
message count, contribute timestamps (first one wins for `startedAt`, last
one wins for `lastActivityAt`) and the first truthy branch; truthy
`summary`-kind records overwrite the summary. All other kinds are ignored. -/
def infoStep (acc : InfoAcc) (line : Line) : InfoAcc :=
  match line with
  | none => acc
  | some msg =>
    let acc1 :=
      if msg.type = .user ∨ msg.type = .assistant then
        let a := { acc with messageCount := acc.messageCount + 1 }
        let a :=
          if msg.timestamp ≠ "" then
            { a with
              startedAt := if a.startedAt = "" then msg.timestamp else a.startedAt
              lastActivityAt := msg.timestamp }
          else a
        if msg.gitBranch ≠ "" ∧ a.gitBranch = "" then
          { a with gitBranch := msg.gitBranch }
        else a
      else acc
    if msg.type = .summary ∧ msg.summary ≠ "" then
      { acc1 with summary := msg.summary }
    else acc1

/-- The incremental summary pass `getSessionInfo`
(src/parsers/session-parser.ts): fold the file, fail (`null`) when no
user/assistant record carried a timestamp. `sizeBytes` is filled in by the
caller from `stat`, as in the source. -/
def getSessionInfo (lines : SessionFile) (sessionId project : String) : Option SessionInfo :=
  let a := lines.foldl infoStep {}
  if a.startedAt = "" then none
  else
    some
      { sessionId
        project
        summary := a.summary
        messageCount := a.messageCount
        startedAt := a.startedAt
        lastActivityAt := if a.lastActivityAt ≠ "" then a.lastActivityAt else a.startedAt
        sizeBytes := 0
        gitBranch := a.gitBranch }

/-- One entry of `allMessages` in `parseSessionFile`. -/
structure RawMsg where
  role : MsgType
  rawContent : MessageContent
  timestamp : String
deriving DecidableEq, Repr

/-- The `allMessages` accumulation of `parseSessionFile`: user/assistant
records that carry a `message` field, in file order. (The source builds this
in the same loop as the metadata fold; the two accumulations are
independent, so they are split into two passes here.) -/
def collectMessages (lines : SessionFile) : List RawMsg :=
  lines.filterMap fun line =>
    match line with
    | none => none
    | some m =>
      if m.type = .user ∨ m.type = .assistant then
        match m.message with
        | some mm => some ⟨m.type, mm.content, m.timestamp⟩
        | none => none
      else none

/-- Output formats of `get_session`. -/
inductive OutputFormat
  | json
  | markdown
  | full
  | standard
  | minimal
deriving DecidableEq, Repr

/-- Legacy flat message (src/types.ts `SessionMessage_Output`). -/
structure LegacyMsg where
  role : MsgType
  content : String
  timestamp : String
deriving DecidableEq, Repr

/-- Message of the `standard` format (`text`/`toolCalls` use `""`/`[]` for
the `undefined` cases of the source). -/
structure StdMsg where
  role : MsgType
  timestamp : String
  text : String := ""
  toolCalls : List String := []
deriving DecidableEq, Repr

/-- Message of the `minimal` format. -/
structure MinMsg where
  role : MsgType
  timestamp : String
  contentLength : Nat
  toolCalls : List String := []
deriving DecidableEq, Repr

/-- The five shapes of the `data` field of a `get_session` response. -/
inductive FormattedData
  | legacy (msgs : List LegacyMsg)
  | markdownText (text : String)
  | fullFmt (msgs : List RawMsg)
  | standardFmt (msgs : List StdMsg)
  | minimalFmt (msgs : List MinMsg)
deriving DecidableEq, Repr

/-- Number of messages in a formatted page (the markdown string is not a
message list; its length is defined as 0 and never used by a theorem). -/
def dataLength : FormattedData → Nat
  | .legacy msgs => msgs.length
  | .markdownText _ => 0
  | .fullFmt msgs => msgs.length
  | .standardFmt msgs => msgs.length
  | .minimalFmt msgs => msgs.length

/-- Markdown rendering of `parseSessionFile` (the `mdLines` block). -/
def renderMarkdown (sessionId projectPath summary gitBranch startedAt lastActivityAt : String)
    (msgs : List LegacyMsg) : String :=
  let header :=
    ["# Session: " ++ sessionId, "**Project:** " ++ projectPath]
      ++ (if summary ≠ "" then ["**Summary:** " ++ summary] else [])
      ++ (if gitBranch ≠ "" then ["**Branch:** " ++ gitBranch] else [])
      ++ ["**Started:** " ++ startedAt, "**Last Activity:** " ++ lastActivityAt, ""]
  let body :=
    msgs.flatMap fun m =>
      ["## " ++ (if m.role = .user then "User" else "Assistant") ++ " (" ++ m.timestamp ++ ")",
        m.content, ""]
  String.intercalate "\n" (header ++ body)

/-- Legacy message list of the `json`/`markdown` formats: flatten each page
message, then (unless `includeToolCalls`) drop messages whose flattened text
contains the literal `[Tool` marker. -/
def legacyMessagesOf (includeToolCalls : Bool) (page : List RawMsg) : List LegacyMsg :=
  (page.map fun m => (⟨m.role, extractContentText m.rawContent, m.timestamp⟩ : LegacyMsg)).filter
    fun m => includeToolCalls || !strContainsSub m.content "[Tool"

/-- Formatting branch of `parseSessionFile` over the paginated page. -/
def formatPage (format : OutputFormat) (includeToolCalls : Bool)
    (sessionId projectPath summary gitBranch startedAt lastActivityAt : String)
    (page : List RawMsg) : FormattedData :=
  match format with
  | .json => .legacy (legacyMessagesOf includeToolCalls page)
  | .markdown =>
    .markdownText
      (renderMarkdown sessionId projectPath summary gitBranch startedAt lastActivityAt
        (legacyMessagesOf includeToolCalls page))
  | .full => .fullFmt page
  | .standard =>
    .standardFmt
      (page.map fun m =>
        { role := m.role
          timestamp := m.timestamp
          text := extractContentText m.rawContent
          toolCalls := (extractToolCallsFromContent m.rawContent).map (·.1) })
  | .minimal =>
    .minimalFmt
      (page.map fun m =>
        { role := m.role
          timestamp := m.timestamp
          contentLength := (extractContentText m.rawContent).length
          toolCalls := (extractToolCallsFromContent m.rawContent).map (·.1) })

/-- Response record of `parseSessionFile`/`getSession`. -/
structure ParseResult where
  sessionId : String
  project : String
  summary : String := ""
  gitBranch : String := ""
  startedAt : String
  lastActivityAt : String
  data : FormattedData
  total : Nat
  hasMore : Bool
deriving DecidableEq, Repr

/-- Full replay pass `parseSessionFile` (src/parsers/session-parser.ts):
fold the metadata (the loop's timestamp/branch/summary logic is identical to
`infoStep`), collect `allMessages`, fail when no user/assistant record
carried a timestamp, then paginate and format. -/
def parseSessionFile (lines : SessionFile) (sessionId projectPath : String)
    (format : OutputFormat) (includeToolCalls : Bool) (limit offset : Nat) :
    Except String ParseResult :=
  let a := lines.foldl infoStep {}
  let allMessages := collectMessages lines
  if a.startedAt = "" then .error "Invalid session file: no timestamps found"
  else
    let total := allMessages.length
    let page := (allMessages.drop offset).take limit
    let lastActivityAt := if a.lastActivityAt ≠ "" then a.lastActivityAt else a.startedAt
    .ok
      { sessionId
        project := projectPath
        summary := a.summary
        gitBranch := a.gitBranch
        startedAt := a.startedAt
        lastActivityAt
        data :=
          formatPage format includeToolCalls sessionId projectPath a.summary a.gitBranch
            a.startedAt lastActivityAt page
        total
        hasMore := decide (offset + limit < total) }

/-- Directory scan of `getSession`: try `<dir>/<sessionId>.jsonl` in each
project directory; on the first directory where the file exists, parse it.
The source wraps both the `stat` and the `parseSessionFile` call in one
`try { ... } catch { continue }`, so a parse failure (the invalid-session
error) is swallowed and the scan moves on to the next directory. -/
def getSessionGo (sessionId : String) (format : OutputFormat) (includeToolCalls : Bool)
    (limit offset : Nat) : List ProjectDir → Except String ParseResult
  | [] => .error ("Session " ++ sessionId ++ " not found")
  | p :: rest =>
    match lookupFile p (sessionId ++ ".jsonl") with
    | none => getSessionGo sessionId format includeToolCalls limit offset rest
    | some fe =>
      match parseSessionFile fe.lines sessionId (decodeProjectPath p.dirName) format
          includeToolCalls limit offset with
      | .ok r => .ok r
      | .error _ => getSessionGo sessionId format includeToolCalls limit offset rest

/-- The `getSession` operation (src/parsers/session-parser.ts). -/
def getSession (env : ClaudeEnv) (sessionId : String) (format : OutputFormat)
    (includeToolCalls : Bool) (limit offset : Nat) : Except String ParseResult :=
  getSessionGo sessionId format includeToolCalls limit offset env.projects

/-- Response record of `getSessionSummary`. -/
structure SummaryResult where
  sessionId : String
  summary : String
  project : String
  messageCount : Nat
  startedAt : String
  lastActivityAt : String
deriving DecidableEq, Repr

/-- The legacy list of a `data` payload (the source casts
`session.data as SessionMessage_Output[]` after requesting the json format). -/
def legacyListOf : FormattedData → List LegacyMsg
  | .legacy msgs => msgs
  | _ => []

/-- Directory scan of `getSessionSummary`: on the first directory holding the
file, derive the Session View; with no stored summary, re-parse in the legacy
json format with `limit 1, offset 0` and use the first user message found in
that single-message page. Thrown errors (`Failed to parse session`, the
invalid-session error) are swallowed by the surrounding catch, which moves on
to the next directory. -/
def getSessionSummaryGo (sessionId : String) : List ProjectDir → Except String SummaryResult
  | [] => .error ("Session " ++ sessionId ++ " not found")
  | p :: rest =>
    match lookupFile p (sessionId ++ ".jsonl") with
    | none => getSessionSummaryGo sessionId rest
    | some fe =>
      let projectPath := decodeProjectPath p.dirName
      match getSessionInfo fe.lines sessionId projectPath with
      | none => getSessionSummaryGo sessionId rest
      | some info =>
        if info.summary ≠ "" then
          .ok
            { sessionId
              summary := info.summary
              project := info.project
              messageCount := info.messageCount
              startedAt := info.startedAt
              lastActivityAt := info.lastActivityAt }
        else
          match parseSessionFile fe.lines sessionId projectPath .json false 1 0 with
          | .error _ => getSessionSummaryGo sessionId rest
          | .ok session =>
            let firstUserMessage := (legacyListOf session.data).find? fun m => m.role = .user
            let summaryText :=
              match firstUserMessage with
              | none => "No summary available"
              | some m =>
                if strTake m.content 200 ≠ "" then strTake m.content 200
                else "No summary available"
            .ok
              { sessionId
                summary := summaryText
                project := info.project
                messageCount := info.messageCount
                startedAt := info.startedAt
                lastActivityAt := info.lastActivityAt }

/-- The `getSessionSummary` operation (src/parsers/session-parser.ts). -/
def getSessionSummary (env : ClaudeEnv) (sessionId : String) : Except String SummaryResult :=
  getSessionSummaryGo sessionId env.projects

/-! ## Timeline view (src/tools/get-session-timeline.ts) -/

/-- One event of a session timeline (`content = ""` models `undefined`). -/
structure TimelineEvent where
  timestamp : String
  type : String
  details : String
  content : String := ""
deriving DecidableEq, Repr

/-- Accumulator of the timeline replay loop. -/
structure TimelineAcc where
  timeline : List TimelineEvent := []
  summary : String := ""
  gitBranch : String := ""
  startedAt : String := ""
  endedAt : String := ""
  userMessages : Nat := 0
  assistantMessages : Nat := 0
  toolCallCount : Nat := 0
  agentSpawnCount : Nat := 0
deriving DecidableEq, Repr

/-- Last path component of a file path (`filePath.split('/').pop()`). -/
def lastPathComponent (s : String) : String :=
  (s.splitOn "/").getLastD ""

/-- Tool-call detail string of a timeline `tool_call` event. -/
def toolCallDetails (name : String) (input : ToolInput) : String :=
  if name = "Read" ∧ input.file_path ≠ "" then "Read: " ++ lastPathComponent input.file_path
  else if name = "Write" ∧ input.file_path ≠ "" then "Write: " ++ lastPathComponent input.file_path
  else if name = "Edit" ∧ input.file_path ≠ "" then "Edit: " ++ lastPathComponent input.file_path
  else if name = "Bash" ∧ input.command ≠ "" then "Bash: " ++ strTake input.command 50
  else name

/-- Timeline events and counter updates contributed by one assistant
record's tool calls, in block order. -/
def timelineToolEvents (acc : TimelineAcc) (timestamp : String) :
    List (String × ToolInput) → TimelineAcc
  | [] => acc
  | (name, input) :: rest =>
    let acc :=
      if name = "Task" then
        { acc with
          agentSpawnCount := acc.agentSpawnCount + 1
          timeline := acc.timeline ++
            [{ timestamp
               type := "agent_spawn"
               details := "Spawned " ++
                 (if input.subagent_type ≠ "" then input.subagent_type else "unknown") ++
                 ": " ++ input.description }] }
      else
        { acc with
          toolCallCount := acc.toolCallCount + 1
          timeline := acc.timeline ++
            [{ timestamp
               type := "tool_call"
               details := toolCallDetails name input }] }
    timelineToolEvents acc timestamp rest

/-- One loop iteration of the timeline replay. Truthy `summary`-kind records
set the summary and skip the rest of the body (`continue`); every other
record contributes its truthy branch/timestamp; user/assistant records with
a `message` yield events. -/
def timelineStep (includeContent : Bool) (acc : TimelineAcc) (line : Line) : TimelineAcc :=
  match line with
  | none => acc
  | some msg =>
    if msg.type = .summary ∧ msg.summary ≠ "" then
      { acc with summary := msg.summary }
    else
      let acc :=
        if msg.gitBranch ≠ "" ∧ acc.gitBranch = "" then { acc with gitBranch := msg.gitBranch }
        else acc
      let acc :=
        if msg.timestamp ≠ "" then
          { acc with
            startedAt := if acc.startedAt = "" then msg.timestamp else acc.startedAt
            endedAt := msg.timestamp }
        else acc
      let acc :=
        match msg.type, msg.message with
        | .user, some mm =>
          let textContent := extractTextContent mm.content
          { acc with
            userMessages := acc.userMessages + 1
            timeline := acc.timeline ++
              [{ timestamp := msg.timestamp
                 type := "user_message"
                 details := "User message (" ++ toString textContent.length ++ " chars)"
                 content := if includeContent then textContent else "" }] }
        | .assistant, some mm =>
          let toolCalls := extractToolCallsFromContent mm.content
          let textContent := extractTextContent mm.content
          let acc := { acc with assistantMessages := acc.assistantMessages + 1 }
          let acc :=
            if textContent ≠ "" then
              { acc with
                timeline := acc.timeline ++
                  [{ timestamp := msg.timestamp
                     type := "assistant_message"
                     details := "Assistant response (" ++ toString textContent.length ++ " chars)"
                     content := if includeContent then textContent else "" }] }
            else acc
          timelineToolEvents acc msg.timestamp toolCalls
        | _, _ => acc
      acc

/-- Duration formatting shared by get-session-timeline.ts and
compare-sessions.ts (`Math.floor` is floor division). -/
def formatDuration (ms : Int) : String :=
  let seconds := ms.fdiv 1000
  let minutes := seconds.fdiv 60
  let hours := minutes.fdiv 60
  if hours > 0 then toString hours ++ "h " ++ toString (minutes % 60) ++ "m"
  else if minutes > 0 then toString minutes ++ "m " ++ toString (seconds % 60) ++ "s"
  else toString seconds ++ "s"

/-- Per-kind event counts of the `minimal` timeline format, built in event
order as a JS object. -/
def eventCountsOf (events : List TimelineEvent) : List (String × Nat) :=
  events.foldl (fun m e => bumpCount m e.type) []

/-- The `data` field of a timeline response. -/
inductive TimelineData
  | events (l : List TimelineEvent)
  | counts (m : List (String × Nat))
deriving DecidableEq, Repr

/-- Timeline response record. -/
structure TimelineResult where
  sessionId : String
  project : String
  summary : String := ""
  gitBranch : String := ""
  duration : String
  startedAt : String
  endedAt : String
  eventCount : Nat
  userMessages : Nat
  assistantMessages : Nat
  toolCallCount : Nat
  agentSpawnCount : Nat
  data : TimelineData
  total : Nat
  hasMore : Bool
deriving DecidableEq, Repr

/-- Clamp of the `limit` argument shared by the get_session,
get_session_timeline, and get_agent_activity handlers:
`Math.min(Math.max(1, limit), cap)`. -/
def validateLimit (limit cap : Int) : Int :=
  min (max 1 limit) cap

/-- Clamp of the `offset` argument: `Math.max(0, offset)`. -/
def validateOffset (offset : Int) : Int :=
  max 0 offset

/-- Directory scan and replay of `getSessionTimelineHandler`. The pagination
arguments arrive unclamped; the handler clamps them before use. -/
def getSessionTimelineGo (sessionId : String) (includeContent : Bool) (format : String)
    (limit offset : Int) : List ProjectDir → Except String TimelineResult
  | [] => .error ("Session " ++ sessionId ++ " not found")
  | p :: rest =>
    match lookupFile p (sessionId ++ ".jsonl") with
    | none => getSessionTimelineGo sessionId includeContent format limit offset rest
    | some fe =>
      let a := fe.lines.foldl (timelineStep includeContent) {}
      if a.startedAt = "" then .error "Invalid session file: no timestamps found"
      else
        let validatedLimit := validateLimit limit 200
        let validatedOffset := validateOffset offset
        let durationMs :=
          if a.endedAt ≠ "" then dateMillis a.endedAt - dateMillis a.startedAt else 0
        let total := a.timeline.length
        let page := (a.timeline.drop validatedOffset.toNat).take validatedLimit.toNat
        let hasMore := decide (validatedOffset + validatedLimit < (total : Int))
        .ok
          { sessionId
            project := decodeProjectPath p.dirName
            summary := a.summary
            gitBranch := a.gitBranch
            duration := formatDuration durationMs
            startedAt := a.startedAt
            endedAt := if a.endedAt ≠ "" then a.endedAt else a.startedAt
            eventCount := total
            userMessages := a.userMessages
            assistantMessages := a.assistantMessages
            toolCallCount := a.toolCallCount
            agentSpawnCount := a.agentSpawnCount
            data := if format = "minimal" then .counts (eventCountsOf a.timeline) else .events page
            total
            hasMore := if format = "minimal" then false else hasMore }

/-- The `get_session_timeline` handler (src/tools/get-session-timeline.ts). -/
def getSessionTimeline (env : ClaudeEnv) (sessionId : String) (includeContent : Bool)
    (format : String) (limit offset : Int) : Except String TimelineResult :=
  getSessionTimelineGo sessionId includeContent format limit offset env.projects

/-! ## Pairwise comparison (src/tools/compare-sessions.ts) -/

/-- Accumulator of the `getSessionStats` replay loop. -/
structure StatsAcc where
  summary : String := ""
  gitBranch : String := ""
  startedAt : String := ""
  endedAt : String := ""
  userMessages : Nat := 0
  assistantMessages : Nat := 0
  toolsUsed : List (String × Nat) := []
  agentSpawns : List (String × String) := []
  filesAccessed : List String := []
deriving DecidableEq, Repr

/-- Per-tool-call updates of `getSessionStats` for one assistant record. -/
def statsToolStep (a : StatsAcc) (t : String × ToolInput) : StatsAcc :=
  let a := { a with toolsUsed := bumpCount a.toolsUsed t.1 }
  let a :=
    if t.1 = "Task" then
      { a with
        agentSpawns := a.agentSpawns ++
          [((if t.2.subagent_type ≠ "" then t.2.subagent_type else "unknown"), t.2.description)] }
    else a
  let fp := if t.2.file_path ≠ "" then t.2.file_path else t.2.path
  if fp ≠ "" ∧ (t.1 = "Read" ∨ t.1 = "Write" ∨ t.1 = "Edit") then
    { a with filesAccessed := addUnique a.filesAccessed fp }
  else a

/-- One loop iteration of `getSessionStats`: unlike the incremental parser
fold, timestamps and branches are taken from records of every kind. -/
def statsStep (acc : StatsAcc) (line : Line) : StatsAcc :=
  match line with
  | none => acc
  | some msg =>
    let acc :=
      if msg.type = .summary ∧ msg.summary ≠ "" then { acc with summary := msg.summary } else acc
    let acc :=
      if msg.gitBranch ≠ "" ∧ acc.gitBranch = "" then { acc with gitBranch := msg.gitBranch }
      else acc
    let acc :=
      if msg.timestamp ≠ "" then
        { acc with
          startedAt := if acc.startedAt = "" then msg.timestamp else acc.startedAt
          endedAt := msg.timestamp }
      else acc
    let acc := if msg.type = .user then { acc with userMessages := acc.userMessages + 1 } else acc
    match msg.type, msg.message with
    | .assistant, some mm =>
      (extractToolCallsFromContent mm.content).foldl statsToolStep
        { acc with assistantMessages := acc.assistantMessages + 1 }
    | _, _ => acc

/-- Per-session statistics record of `compare_sessions`
(`filesAccessed = none` models the field being left off). -/
structure SessionStats where
  sessionId : String
  project : String
  summary : String := ""
  gitBranch : String := ""
  startedAt : String
  endedAt : String
  durationMs : Int
  durationFormatted : String
  userMessages : Nat
  assistantMessages : Nat
  totalMessages : Nat
  toolsUsed : List (String × Nat)
  uniqueToolCount : Nat
  totalToolCalls : Nat
  agentSpawns : List (String × String)
  filesAccessed : Option (List String) := none
deriving DecidableEq, Repr

/-- Directory scan of `getSessionStats`: the first directory holding the file
is replayed; a file with no timestamped record of any kind makes the whole
lookup return `null` immediately (`return null`, not `continue`). -/
def getSessionStatsGo (sessionId : String) (includeFiles : Bool) :
    List ProjectDir → Option SessionStats
  | [] => none
  | p :: rest =>
    match lookupFile p (sessionId ++ ".jsonl") with
    | none => getSessionStatsGo sessionId includeFiles rest
    | some fe =>
      let a := fe.lines.foldl statsStep {}
      if a.startedAt = "" then none
      else
        let durationMs :=
          if a.endedAt ≠ "" then dateMillis a.endedAt - dateMillis a.startedAt else 0
        some
          { sessionId
            project := decodeProjectPath p.dirName
            summary := a.summary
            gitBranch := a.gitBranch
            startedAt := a.startedAt
            endedAt := if a.endedAt ≠ "" then a.endedAt else a.startedAt
            durationMs
            durationFormatted := formatDuration durationMs
            userMessages := a.userMessages
            assistantMessages := a.assistantMessages
            totalMessages := a.userMessages + a.assistantMessages
            toolsUsed := a.toolsUsed
            uniqueToolCount := a.toolsUsed.length
            totalToolCalls := a.toolsUsed.foldl (fun s t => s + t.2) 0
            agentSpawns := a.agentSpawns
            filesAccessed := if includeFiles then some a.filesAccessed else none }

/-- The `getSessionStats` helper of compare-sessions.ts. -/
def getSessionStats (env : ClaudeEnv) (sessionId : String) (includeFiles : Bool) :
    Option SessionStats :=
  getSessionStatsGo sessionId includeFiles env.projects

/-- Derived comparison block of a `compare_sessions` response. -/
structure ComparisonFields where
  longerSession : String
  durationDifference : String
  moreMessages : String
  messageDifference : Nat
  moreToolCalls : String
  toolCallDifference : Nat
  sharedTools : List String
  uniqueToSession1 : List String
  uniqueToSession2 : List String
  sharedFiles : List String
deriving DecidableEq, Repr

/-- Tool-name key set of a stats record (`new Set(Object.keys(toolsUsed))`;
the keys are already distinct, in insertion order). -/
def toolKeys (s : SessionStats) : List String :=
  s.toolsUsed.map (·.1)

/-- The comparison derivation of `compareSessionsHandler`, applied to the two
independently computed stats records. Every `x1 > x2 ? id1 : id2` choice
falls to `sessionId2` on a tie. -/
def compareCore (stats1 stats2 : SessionStats) (includeFiles : Bool) : ComparisonFields :=
  let tools1 := toolKeys stats1
  let tools2 := toolKeys stats2
  { longerSession :=
      if stats1.durationMs > stats2.durationMs then stats1.sessionId else stats2.sessionId
    durationDifference := formatDuration ((stats1.durationMs - stats2.durationMs).natAbs : Int)
    moreMessages :=
      if stats1.totalMessages > stats2.totalMessages then stats1.sessionId else stats2.sessionId
    messageDifference := ((stats1.totalMessages : Int) - stats2.totalMessages).natAbs
    moreToolCalls :=
      if stats1.totalToolCalls > stats2.totalToolCalls then stats1.sessionId else stats2.sessionId
    toolCallDifference := ((stats1.totalToolCalls : Int) - stats2.totalToolCalls).natAbs
    sharedTools := tools1.filter fun t => t ∈ tools2
    uniqueToSession1 := tools1.filter fun t => t ∉ tools2
    uniqueToSession2 := tools2.filter fun t => t ∉ tools1
    sharedFiles :=
      match includeFiles, stats1.filesAccessed, stats2.filesAccessed with
      | true, some files1, some files2 => files1.filter fun f => f ∈ files2
      | _, _, _ => [] }

/-- Full `compare_sessions` response. -/
structure ComparisonResult where
  session1 : SessionStats
  session2 : SessionStats
  comparison : ComparisonFields
deriving DecidableEq, Repr

/-- The `compare_sessions` handler (src/tools/compare-sessions.ts). -/
def compareSessions (env : ClaudeEnv) (sessionId1 sessionId2 : String) (includeFiles : Bool) :
    Except String ComparisonResult :=
  match getSessionStats env sessionId1 includeFiles with
  | none => .error ("Session " ++ sessionId1 ++ " not found")
  | some stats1 =>
    match getSessionStats env sessionId2 includeFiles with
    | none => .error ("Session " ++ sessionId2 ++ " not found")
    | some stats2 =>
      .ok { session1 := stats1, session2 := stats2, comparison := compareCore stats1 stats2 includeFiles }

/-! ## Agent activity (src/tools/get-agent-activity.ts) -/

/-- One extracted agent spawn (`prompt = ""` models `undefined`). -/
structure AgentSpawn where
  subagentType : String
  description : String
  timestamp : String
  prompt : String := ""
deriving DecidableEq, Repr

/-- The spawn extractor `extractAgentSpawns`: `tool_use` blocks named `Task`,
projecting the sub-agent type (defaulted to `unknown`), description, and a
200-character prompt prefix. -/
def extractAgentSpawns (content : MessageContent) (timestamp : String) : List AgentSpawn :=
  match content with
  | .str _ => []
  | .blocks bs =>
    bs.filterMap fun b =>
      match b with
      | .toolUse n input =>
        if n = "Task" then
          some
            { subagentType := if input.subagent_type ≠ "" then input.subagent_type else "unknown"
              description := input.description
              timestamp
              prompt := if input.prompt ≠ "" then strTake input.prompt 200 else "" }
        else none
      | _ => none

/-- Agent-activity response record. -/
structure AgentActivityResult where
  sessionId : String
  project : String
  summary : String := ""
  data : List AgentSpawn
  total : Nat
  hasMore : Bool
  uniqueAgentTypes : List String
  agentTypeCounts : List (String × Nat)
deriving DecidableEq, Repr

/-- Accumulator of the agent-activity loop. -/
structure AgentAcc where
  agentSpawns : List AgentSpawn := []
  summary : String := ""
deriving DecidableEq, Repr

/-- One loop iteration of `getAgentActivityHandler`. -/
def agentStep (acc : AgentAcc) (line : Line) : AgentAcc :=
  match line with
  | none => acc
  | some msg =>
    let acc :=
      if msg.type = .summary ∧ msg.summary ≠ "" then { acc with summary := msg.summary } else acc
    match msg.type, msg.message with
    | .assistant, some mm =>
      { acc with agentSpawns := acc.agentSpawns ++ extractAgentSpawns mm.content msg.timestamp }
    | _, _ => acc

/-- Directory scan of `getAgentActivityHandler`; the pagination arguments
arrive unclamped and are clamped (cap 100) before slicing. -/
def getAgentActivityGo (sessionId : String) (limit offset : Int) :
    List ProjectDir → Except String AgentActivityResult
  | [] => .error ("Session " ++ sessionId ++ " not found")
  | p :: rest =>
    match lookupFile p (sessionId ++ ".jsonl") with
    | none => getAgentActivityGo sessionId limit offset rest
    | some fe =>
      let a := fe.lines.foldl agentStep {}
      let agentTypeCounts := a.agentSpawns.foldl (fun m s => bumpCount m s.subagentType) []
      let validatedLimit := validateLimit limit 100
      let validatedOffset := validateOffset offset
      let total := a.agentSpawns.length
      let page := (a.agentSpawns.drop validatedOffset.toNat).take validatedLimit.toNat
      .ok
        { sessionId
          project := decodeProjectPath p.dirName
          summary := a.summary
          data := page
          total
          hasMore := decide (validatedOffset + validatedLimit < (total : Int))
          uniqueAgentTypes := agentTypeCounts.map (·.1)
          agentTypeCounts }

/-- The `get_agent_activity` handler (src/tools/get-agent-activity.ts). -/
def getAgentActivity (env : ClaudeEnv) (sessionId : String) (limit offset : Int) :
    Except String AgentActivityResult :=
  getAgentActivityGo sessionId limit offset env.projects

/-- The `get_session` handler wrapper (src/tools/get-session.ts): clamp the
pagination arguments (cap 200) and delegate to `getSession`. -/
def getSessionHandler (env : ClaudeEnv) (sessionId : String) (format : OutputFormat)
    (includeToolCalls : Bool) (limit offset : Int) : Except String ParseResult :=
  getSession env sessionId format includeToolCalls (validateLimit limit 200).toNat
    (validateOffset offset).toNat

/-! ## Content search (src/tools/search-session-content.ts) -/

/-- One content-search result row. -/
structure ContentSearchResult where
  sessionId : String
  project : String
  role : MsgType
  content : String
  timestamp : String
  matchContext : String
deriving DecidableEq, Repr

/-- The `getMatchContext` helper: locate the (case-insensitive) match, return
a window of `contextLength` characters on each side with ellipses where
clipped, or the first 200 characters when no match exists. -/
def getMatchContext (content query : String) (contextLength : Nat) : String :=
  match indexOfSub (lowerStr content).toList (lowerStr query).toList with
  | none => strTake content 200
  | some matchIndex =>
    let start := matchIndex - contextLength
    let stop := min content.length (matchIndex + query.length + contextLength)
    let ctx := String.mk ((content.toList.drop start).take (stop - start))
    let ctx := if start > 0 then "..." ++ ctx else ctx
    if stop < content.length then ctx ++ "..." else ctx

/-- Per-line loop of the content search on one file. The global result list
is threaded through; the loop breaks as soon as it holds `limit` entries
(the source checks this at the top of the body; checking it on skipped lines
too gives the same results). -/
def searchFileLines (queryLower query roleArg : String) (sinceMs untilMs : Int)
    (sessionId projectPath : String) (limit : Int) (results : List ContentSearchResult) :
    SessionFile → List ContentSearchResult
  | [] => results
  | line :: rest =>
    if (results.length : Int) ≥ limit then results
    else
      match line with
      | none => searchFileLines queryLower query roleArg sinceMs untilMs sessionId projectPath
          limit results rest
      | some msg =>
        let keep :=
          (msg.type = .user ∨ msg.type = .assistant) ∧
            (roleArg = "both" ∨ msgTypeStr msg.type = roleArg) ∧
            (msg.timestamp = "" ∨
              (sinceMs ≤ dateMillis msg.timestamp ∧ dateMillis msg.timestamp ≤ untilMs))
        let results :=
          if keep then
            match msg.message with
            | none => results
            | some mm =>
              let contentText := extractContentTextSearch mm.content
              if strContainsSub (lowerStr contentText) queryLower then
                results ++
                  [{ sessionId
                     project := projectPath
                     role := msg.type
                     content := strTake contentText 500
                     timestamp := msg.timestamp
                     matchContext := getMatchContext contentText query 100 }]
              else results
          else results
        searchFileLines queryLower query roleArg sinceMs untilMs sessionId projectPath
          limit results rest

/-- Per-file loop of the content search on one project directory, with the
break once the global limit is reached. -/
def searchProjectFiles (queryLower query roleArg : String) (sinceMs untilMs : Int)
    (projectPath : String) (limit : Int) (results : List ContentSearchResult) :
    List FileEntry → List ContentSearchResult
  | [] => results
  | fe :: rest =>
    if !isSessionFileName fe.name then
      searchProjectFiles queryLower query roleArg sinceMs untilMs projectPath limit results rest
    else
      let results :=
        searchFileLines queryLower query roleArg sinceMs untilMs (stripJsonl fe.name)
          projectPath limit results fe.lines
      if (results.length : Int) ≥ limit then results
      else searchProjectFiles queryLower query roleArg sinceMs untilMs projectPath limit results rest

/-- Per-project loop of the content search, with the same break. -/
def searchProjects (queryLower query roleArg projectFilter : String) (sinceMs untilMs : Int)
    (limit : Int) (results : List ContentSearchResult) :
    List ProjectDir → List ContentSearchResult
  | [] => results
  | p :: rest =>
    let projectPath := decodeProjectPath p.dirName
    if projectFilter ≠ "" ∧ ¬strContainsSub projectPath projectFilter then
      searchProjects queryLower query roleArg projectFilter sinceMs untilMs limit results rest
    else
      let results :=
        searchProjectFiles queryLower query roleArg sinceMs untilMs projectPath limit results
          p.files
      if (results.length : Int) ≥ limit then results
      else searchProjects queryLower query roleArg projectFilter sinceMs untilMs limit results rest

/-- Content-search response record. -/
structure SearchContentResult where
  results : List ContentSearchResult
  total : Nat
  query : String
deriving DecidableEq, Repr

/-- The `search_session_content` handler. `""` stands for an absent
`project`/`since`/`until`; an absent `until` defaults to the call-time clock
`now`; results are sorted by timestamp descending (stable). -/
def searchSessionContent (env : ClaudeEnv) (query projectFilter roleArg since untilArg : String)
    (limit : Int) (now : Int) : SearchContentResult :=
  let sinceMs := if since = "" then 0 else dateMillis since
  let untilMs := if untilArg = "" then now else dateMillis untilArg
  let results :=
    searchProjects (lowerStr query) query roleArg projectFilter sinceMs untilMs limit []
      env.projects
  let sorted :=
    stableSortBy (fun a b => dateMillis b.timestamp ≤ dateMillis a.timestamp) results
  { results := sorted.take limit.toNat
    total := results.length
    query }

/-! ## Branch index (src/tools/find-sessions-by-branch.ts) -/

/-- One branch-search result row. -/
structure BranchSessionResult where
  sessionId : String
  project : String
  summary : String := ""
  gitBranch : String
  messageCount : Nat
  startedAt : String
  lastActivityAt : String
  sizeBytes : Nat
deriving DecidableEq, Repr

/-- Per-file loop of the branch search on one project directory. The per-file
fold is textually identical to `getSessionInfo`'s loop, so it reuses
`infoStep`; a session qualifies when both a branch and a timestamp were seen
and the branch matches (case-insensitive equality under `exactMatch`,
case-insensitive containment otherwise). The loop breaks once the global
result list holds `2 * limit` entries. -/
def branchScanFiles (branchLower : String) (exactMatch : Bool) (projectPath : String)
    (limit : Int) (results : List BranchSessionResult) :
    List FileEntry → List BranchSessionResult
  | [] => results
  | fe :: rest =>
    if !isSessionFileName fe.name then
      branchScanFiles branchLower exactMatch projectPath limit results rest
    else
      let a := fe.lines.foldl infoStep {}
      let results :=
        if a.gitBranch ≠ "" ∧ a.startedAt ≠ "" then
          let branchMatches :=
            if exactMatch then lowerStr a.gitBranch = branchLower
            else strContainsSub (lowerStr a.gitBranch) branchLower
          if branchMatches then
            results ++
              [{ sessionId := stripJsonl fe.name
                 project := projectPath
                 summary := a.summary
                 gitBranch := a.gitBranch
                 messageCount := a.messageCount
                 startedAt := a.startedAt
                 lastActivityAt := if a.lastActivityAt ≠ "" then a.lastActivityAt else a.startedAt
                 sizeBytes := fe.size }]
          else results
        else results
      if (results.length : Int) ≥ limit * 2 then results
      else branchScanFiles branchLower exactMatch projectPath limit results rest

/-- Per-project loop of the branch search. Unlike the content search, there
is no break at the project level. -/
def branchScanProjects (branchLower projectFilter : String) (exactMatch : Bool) (limit : Int)
    (results : List BranchSessionResult) : List ProjectDir → List BranchSessionResult
  | [] => results
  | p :: rest =>
    let projectPath := decodeProjectPath p.dirName
    if projectFilter ≠ "" ∧ ¬strContainsSub projectPath projectFilter then
      branchScanProjects branchLower projectFilter exactMatch limit results rest
    else
      let results :=
        branchScanFiles branchLower exactMatch projectPath limit results p.files
      branchScanProjects branchLower projectFilter exactMatch limit results rest

/-- Branch-search response record. -/
structure BranchSearchResult where
  results : List BranchSessionResult
  total : Nat
  searchedBranch : String
  exactMatch : Bool
deriving DecidableEq, Repr

/-- The `find_sessions_by_branch` handler. -/
def findSessionsByBranch (env : ClaudeEnv) (branch projectFilter : String) (exactMatch : Bool)
    (limit : Int) : BranchSearchResult :=
  let results := branchScanProjects (lowerStr branch) projectFilter exactMatch limit [] env.projects
  let sorted :=
    stableSortBy (fun a b => dateMillis b.startedAt ≤ dateMillis a.startedAt) results
  { results := sorted.take limit.toNat
    total := results.length
    searchedBranch := branch
    exactMatch }

/-! ## Session listing (src/parsers/session-parser.ts `listSessions`) -/

/-- Per-file loop of `listSessions` on one project directory: derive the
Session View, filter by the date window, record the byte size, and break the
file loop once `limit * 10` sessions have been accumulated (checked after
each push, as in the source). -/
def listScanFiles (sinceMs untilMs : Int) (projectPath : String) (limit : Int)
    (sessions : List SessionInfo) : List FileEntry → List SessionInfo
  | [] => sessions
  | fe :: rest =>
    if !isSessionFileName fe.name then
      listScanFiles sinceMs untilMs projectPath limit sessions rest
    else
      match getSessionInfo fe.lines (stripJsonl fe.name) projectPath with
      | none => listScanFiles sinceMs untilMs projectPath limit sessions rest
      | some info =>
        let d := dateMillis info.startedAt
        if d < sinceMs ∨ d > untilMs then
          listScanFiles sinceMs untilMs projectPath limit sessions rest
        else
          let sessions := sessions ++ [{ info with sizeBytes := fe.size }]
          if (sessions.length : Int) ≥ limit * 10 then sessions
          else listScanFiles sinceMs untilMs projectPath limit sessions rest

/-- Per-project loop of `listSessions`; no break at the project level. -/
def listScanProjects (projectFilter : String) (sinceMs untilMs : Int) (limit : Int)
    (sessions : List SessionInfo) : List ProjectDir → List SessionInfo
  | [] => sessions
  | p :: rest =>
    let projectPath := decodeProjectPath p.dirName
    if projectFilter ≠ "" ∧ ¬strContainsSub projectPath projectFilter then
      listScanProjects projectFilter sinceMs untilMs limit sessions rest
    else
      let sessions := listScanFiles sinceMs untilMs projectPath limit sessions p.files
      listScanProjects projectFilter sinceMs untilMs limit sessions rest

/-- Session-list response record. -/
structure ListSessionsResult where
  sessions : List SessionInfo
  total : Nat
deriving DecidableEq, Repr

/-- Sort comparator of `listSessions` as a stable-sort predicate: the JS
comparator returns the (possibly negated) key difference, so `le a b` holds
exactly when that difference is `≤ 0`. -/
def listSortLe (sortBy sortOrder : String) (a b : SessionInfo) : Bool :=
  let c : Int :=
    if sortBy = "date" then dateMillis a.startedAt - dateMillis b.startedAt
    else (a.sizeBytes : Int) - (b.sizeBytes : Int)
  if sortOrder = "desc" then -c ≤ 0 else c ≤ 0

/-- The `list_sessions` operation. `""` stands for an absent filter; an
absent `until` defaults to the call-time clock `now`. -/
def listSessions (env : ClaudeEnv) (projectFilter since untilArg sortBy sortOrder : String)
    (limit : Int) (now : Int) : ListSessionsResult :=
  let sinceMs := if since = "" then 0 else dateMillis since
  let untilMs := if untilArg = "" then now else dateMillis untilArg
  let sessions := listScanProjects projectFilter sinceMs untilMs limit [] env.projects
  let sorted := stableSortBy (listSortLe sortBy sortOrder) sessions
  { sessions := sorted.take limit.toNat
    total := sessions.length }

/-! ## Specification-side characterizations

These definitions follow the spec's words (they are not translations of the
source); the theorems below compare the source-derived definitions against
them. -/

/-- Timestamp of the first record in file order that satisfies `p` and
carries a (truthy) timestamp; `""` when no such record exists. -/
def firstTimestampAmong (p : SessionMessage → Bool) : SessionFile → String
  | [] => ""
  | none :: rest => firstTimestampAmong p rest
  | some m :: rest =>
    if p m ∧ m.timestamp ≠ "" then m.timestamp else firstTimestampAmong p rest

/-- Spec-side description of the synthetic-summary fallback actually
implemented by `getSessionSummary`: only the first parsed message of the
session is consulted, and it yields a summary only when it is a user message
whose flattened text survives the legacy tool-call filter and is non-empty
after truncation to 200 characters. -/
def summaryFallback (lines : SessionFile) : String :=
  match (collectMessages lines).head? with
  | none => "No summary available"
  | some m =>
    let c := extractContentText m.rawContent
    if m.role = .user ∧ !strContainsSub c "[Tool" ∧ strTake c 200 ≠ "" then strTake c 200
    else "No summary available"

/-- Spec-side acceptance predicate of `find_sessions_by_branch` for one
directory entry (valid file name, branch and timestamp present, branch
matching), with no accumulation cap. -/
def branchFileMatches (branchLower : String) (exactMatch : Bool) (fe : FileEntry) : Bool :=
  isSessionFileName fe.name &&
    (let a := fe.lines.foldl infoStep {}
     a.gitBranch != "" && a.startedAt != "" &&
       (if exactMatch then lowerStr a.gitBranch == branchLower
        else strContainsSub (lowerStr a.gitBranch) branchLower))

/-- Spec-side count over the whole environment of the accepted sessions. -/
def branchMatchCount (env : ClaudeEnv) (branchLower : String) (exactMatch : Bool) : Nat :=
  (env.projects.map fun p =>
    (p.files.filter (branchFileMatches branchLower exactMatch)).length).sum

/-! ## Helper lemmas -/

/-- The `startedAt` update of one `infoStep` iteration. -/
lemma infoStep_startedAt (acc : InfoAcc) (l : Line) :
    (infoStep acc l).startedAt =
      match l with
      | none => acc.startedAt
      | some m =>
        if (m.type = .user ∨ m.type = .assistant) ∧ m.timestamp ≠ "" ∧ acc.startedAt = "" then
          m.timestamp
        else acc.startedAt := by
  cases l with
  | none => rfl
  | some m =>
    simp only [infoStep]
    split_ifs <;> simp_all

/-- The `startedAt` field after folding `infoStep` over a file. -/
lemma foldl_infoStep_startedAt (lines : SessionFile) (acc : InfoAcc) :
    (lines.foldl infoStep acc).startedAt =
      if acc.startedAt = "" then
        firstTimestampAmong (fun m => m.type = .user || m.type = .assistant) lines
      else acc.startedAt := by
  induction lines generalizing acc with
  | nil => simp [firstTimestampAmong]; split_ifs with h <;> simp [h]
  | cons l ls ih =>
    rw [List.foldl_cons, ih]
    cases l with
    | none => simp [infoStep_startedAt, firstTimestampAmong]
    | some m =>
      rw [infoStep_startedAt]
      simp only [firstTimestampAmong]
      by_cases hacc : acc.startedAt = "" <;>
        by_cases hp : (m.type = .user ∨ m.type = .assistant) <;>
          by_cases ht : m.timestamp ≠ "" <;>
            simp_all

/-- Tool-call events never touch `startedAt`. -/
lemma timelineToolEvents_startedAt (acc : TimelineAcc) (ts : String)
    (l : List (String × ToolInput)) :
    (timelineToolEvents acc ts l).startedAt = acc.startedAt := by
  induction l generalizing acc with
  | nil => rfl
  | cons t rest ih =>
    simp only [timelineToolEvents]
    split_ifs <;> rw [ih]

/-- The `startedAt` update of one timeline iteration: truthy `summary`-kind
records are skipped outright; every other record with a truthy timestamp can
seed `startedAt`. -/
lemma timelineStep_startedAt (ic : Bool) (acc : TimelineAcc) (l : Line) :
    (timelineStep ic acc l).startedAt =
      match l with
      | none => acc.startedAt
      | some m =>
        if ¬(m.type = .summary ∧ m.summary ≠ "") ∧ m.timestamp ≠ "" ∧ acc.startedAt = "" then
          m.timestamp
        else acc.startedAt := by
  cases l with
  | none => rfl
  | some m =>
    simp only [timelineStep]
    by_cases hs : m.type = .summary ∧ m.summary ≠ ""
    · simp [hs]
    · rw [if_neg hs]
      rcases hm : m.message with _ | mm <;> rcases htype : m.type with _ | _ | _ | _ <;>
        simp_all [timelineToolEvents_startedAt] <;> split_ifs <;> simp_all

/-- The `startedAt` field after folding the timeline replay over a file. -/
lemma foldl_timelineStep_startedAt (ic : Bool) (lines : SessionFile) (acc : TimelineAcc) :
    (lines.foldl (timelineStep ic) acc).startedAt =
      if acc.startedAt = "" then
        firstTimestampAmong (fun m => !(m.type = .summary && m.summary != "")) lines
      else acc.startedAt := by
  induction lines generalizing acc with
  | nil => simp [firstTimestampAmong]; split_ifs with h <;> simp [h]
  | cons l ls ih =>
    rw [List.foldl_cons, ih]
    cases l with
    | none => simp [timelineStep_startedAt, firstTimestampAmong]
    | some m =>
      rw [timelineStep_startedAt]
      simp only [firstTimestampAmong]
      by_cases hacc : acc.startedAt = "" <;>
        by_cases hs : m.type = .summary ∧ m.summary ≠ "" <;>
          by_cases ht : m.timestamp ≠ "" <;>
            (simp_all; try (split_ifs <;> simp_all))

/-- Per-tool-call stats updates never touch `startedAt`. -/
lemma statsToolStep_startedAt (a : StatsAcc) (t : String × ToolInput) :
    (statsToolStep a t).startedAt = a.startedAt := by
  simp only [statsToolStep]
  split_ifs <;> rfl

/-- Folding the per-tool-call updates never touches `startedAt`. -/
lemma foldl_statsToolStep_startedAt (l : List (String × ToolInput)) (a : StatsAcc) :
    (l.foldl statsToolStep a).startedAt = a.startedAt := by
  induction l generalizing a with
  | nil => rfl
  | cons t rest ih => rw [List.foldl_cons, ih, statsToolStep_startedAt]

/-- The `startedAt` update of one `getSessionStats` iteration: records of
every kind can seed `startedAt`. -/
lemma statsStep_startedAt (acc : StatsAcc) (l : Line) :
    (statsStep acc l).startedAt =
      match l with
      | none => acc.startedAt
      | some m =>
        if m.timestamp ≠ "" ∧ acc.startedAt = "" then m.timestamp else acc.startedAt := by
  cases l with
  | none => rfl
  | some m =>
    simp only [statsStep]
    rcases hm : m.message with _ | mm <;> rcases htype : m.type with _ | _ | _ | _ <;>
      simp_all [foldl_statsToolStep_startedAt] <;> split_ifs <;> simp_all

/-- The `startedAt` field after folding the stats replay over a file. -/
lemma foldl_statsStep_startedAt (lines : SessionFile) (acc : StatsAcc) :
    (lines.foldl statsStep acc).startedAt =
      if acc.startedAt = "" then firstTimestampAmong (fun _ => true) lines
      else acc.startedAt := by
  induction lines generalizing acc with
  | nil => simp [firstTimestampAmong]; split_ifs with h <;> simp [h]
  | cons l ls ih =>
    rw [List.foldl_cons, ih]
    cases l with
    | none => simp [statsStep_startedAt, firstTimestampAmong]
    | some m =>
      rw [statsStep_startedAt]
      simp only [firstTimestampAmong]
      by_cases hacc : acc.startedAt = "" <;>
        by_cases ht : m.timestamp ≠ "" <;>
          simp_all

/-! ## Claim C7 -/

/-- C7: every text extractor in the repository (the parser's
`extractContentText`, the search tool's `extractContentText`, and the
timeline's `extractTextContent`) is the identity on bare-string content and
returns the empty string on an empty block sequence. -/
theorem extractText_string_id_empty_blocks :
    (∀ s : String,
      extractContentText (.str s) = s ∧ extractContentTextSearch (.str s) = s ∧
        extractTextContent (.str s) = s) ∧
    extractContentText (.blocks []) = "" ∧ extractContentTextSearch (.blocks []) = "" ∧
      extractTextContent (.blocks []) = "" := by
  exact ⟨fun s => ⟨rfl, rfl, rfl⟩, rfl, rfl, rfl⟩

/-! ## Claim C3 -/

/-- C3 (amended): `startedAt` is the timestamp of the first record in file
order that carries one *among the kinds the respective loop inspects*: the
incremental fold shared by `list_sessions`, `get_session_summary`,
`find_sessions_by_branch`, and `get_session`'s replay considers only
user/assistant records; the timeline replay considers every record except
truthy `summary` records; the comparison replay considers records of every
kind. -/
theorem startedAt_first_inspected_timestamp (lines : SessionFile) (sid proj : String)
    (ic : Bool) :
    ((getSessionInfo lines sid proj).map SessionInfo.startedAt).getD "" =
        firstTimestampAmong (fun m => m.type = .user || m.type = .assistant) lines ∧
    (lines.foldl infoStep {}).startedAt =
        firstTimestampAmong (fun m => m.type = .user || m.type = .assistant) lines ∧
    (lines.foldl (timelineStep ic) {}).startedAt =
        firstTimestampAmong (fun m => !(m.type = .summary && m.summary != "")) lines ∧
    (lines.foldl statsStep {}).startedAt = firstTimestampAmong (fun _ => true) lines := by
  have h1 : (lines.foldl infoStep ({} : InfoAcc)).startedAt =
      firstTimestampAmong (fun m => m.type = .user || m.type = .assistant) lines := by
    rw [foldl_infoStep_startedAt]
    exact if_pos rfl
  have h2 : (lines.foldl (timelineStep ic) ({} : TimelineAcc)).startedAt =
      firstTimestampAmong (fun m => !(m.type = .summary && m.summary != "")) lines := by
    rw [foldl_timelineStep_startedAt]
    exact if_pos rfl
  have h3 : (lines.foldl statsStep ({} : StatsAcc)).startedAt =
      firstTimestampAmong (fun _ => true) lines := by
    rw [foldl_statsStep_startedAt]
    exact if_pos rfl
  refine ⟨?_, h1, h2, h3⟩
  unfold getSessionInfo
  by_cases hs : (lines.foldl infoStep {}).startedAt = ""
  · rw [hs] at h1
    simp [hs]
    exact h1
  · simp [hs]
    exact h1

/-- A session file whose first timestamped record is a
`file-history-snapshot` followed by a timestamped user record. -/
def c3File : SessionFile :=
  [some { type := .fileHistorySnapshot, timestamp := "100" },
    some { type := .user, timestamp := "200",
           message := some { role := "user", content := .str "hi" } }]

/-- C3 fails as stated: the first record in file order carrying a timestamp
is the snapshot (timestamp `100`), but the Session View used by
`list_sessions`, `get_session_summary` and `find_sessions_by_branch` reports
`startedAt = 200`. -/
theorem startedAt_not_first_record_timestamp :
    firstTimestampAmong (fun _ => true) c3File = "100" ∧
    (getSessionInfo c3File "s" "p").map SessionInfo.startedAt = some "200" ∧
    (getSessionInfo c3File "s" "p").map SessionInfo.startedAt ≠
      some (firstTimestampAmong (fun _ => true) c3File) := by
  refine ⟨rfl, rfl, ?_⟩
  decide

/-! ## Claim C1 -/

/-- A session file holding exactly one record: a timestamped
`file-history-snapshot` and nothing else. -/
def c1File : SessionFile :=
  [some { type := .fileHistorySnapshot, timestamp := "100" }]

/-- An environment in which the only project directory contains
`abc.jsonl` with that single snapshot record. -/
def c1Env : ClaudeEnv :=
  ⟨[{ dirName := "-home-user-proj",
      files := [{ name := "abc.jsonl", lines := c1File, size := 42 }] }]⟩

/-- C1 exhibits a code bug: the file `abc.jsonl` exists and its parse raises
the distinct invalid-session error, but `getSession`'s per-directory catch
swallows that error and the call ends with the not-found error instead. -/
theorem getSession_invalid_reported_not_found :
    getSession c1Env "abc" .standard false 50 0 = .error "Session abc not found" ∧
    parseSessionFile c1File "abc" (decodeProjectPath "-home-user-proj") .standard false 50 0 =
      .error "Invalid session file: no timestamps found" := by
  exact ⟨rfl, rfl⟩

/-! ## Claim C2 -/

/-- A session file with one plain user message and one assistant message
consisting of a single tool call. -/
def c2File : SessionFile :=
  [some { type := .user, timestamp := "100",
          message := some { role := "user", content := .str "hi" } },
    some { type := .assistant, timestamp := "200",
           message := some { role := "assistant", content := .blocks [.toolUse "Read" {}] } }]

/-- C2 fails as stated for the legacy `json` format with `includeToolCalls`
left at `false`: the page over `offset = 0, limit = 2` should (per the
claim) have `min(2, max(0, 2 - 0)) = 2` entries, but the post-slice tool-call
filter drops the assistant message and only 1 entry is returned. -/
theorem json_page_shorter_than_invariant :
    (parseSessionFile c2File "s" "p" .json false 2 0).toOption.map
        (fun r => (dataLength r.data, r.total, r.hasMore)) = some (1, 2, false) ∧
    (1 : Nat) ≠ min 2 (max 0 (2 - 0)) := by
  exact ⟨rfl, by decide⟩

/-- C2 (amended): for every accepted session file and all `offset, limit ≥ 0`,
`hasMore = (offset + limit < total)` holds in every format, and the page
length equals `min(limit, max(0, total - offset))` in the `full`, `standard`
and `minimal` formats; in the legacy `json`/`markdown` formats the page is
additionally filtered (messages whose flattened text contains `[Tool` are
dropped when `includeToolCalls` is false), so it can be shorter. -/
theorem page_length_and_hasMore (lines : SessionFile) (sid proj : String)
    (format : OutputFormat) (itc : Bool) (limit offset : Nat) (r : ParseResult)
    (h : parseSessionFile lines sid proj format itc limit offset = .ok r) :
    r.hasMore = decide (offset + limit < r.total) ∧
    ((format = .full ∨ format = .standard ∨ format = .minimal) →
      dataLength r.data = min limit (r.total - offset)) := by
  unfold parseSessionFile at h
  by_cases hs : (lines.foldl infoStep {}).startedAt = ""
  · simp [hs] at h
  · simp only [hs, if_neg, ite_false] at h
    rw [Except.ok.injEq] at h
    subst h
    refine ⟨rfl, ?_⟩
    rintro (hf | hf | hf) <;> subst hf <;>
      simp [dataLength, formatPage, List.length_take, List.length_drop]

/-- A one-message session file used to witness the amended C2. -/
def c2wFile : SessionFile :=
  [some { type := .user, timestamp := "100",
          message := some { role := "user", content := .str "hi" } }]

/-- Expected `parseSessionFile` result on `c2wFile` in the standard format
with `limit 1, offset 0`. -/
def c2wResult : ParseResult :=
  { sessionId := "s"
    project := "p"
    startedAt := "100"
    lastActivityAt := "100"
    data := .standardFmt [{ role := .user, timestamp := "100", text := "hi" }]
    total := 1
    hasMore := false }

/-- Witness instantiating the amended C2 on `c2wFile`. -/
theorem page_length_and_hasMore_witness :
    c2wResult.hasMore = decide (0 + 1 < c2wResult.total) ∧
    ((OutputFormat.standard = .full ∨ OutputFormat.standard = .standard ∨
        OutputFormat.standard = .minimal) →
      dataLength c2wResult.data = min 1 (c2wResult.total - 0)) :=
  page_length_and_hasMore c2wFile "s" "p" .standard false 1 0 c2wResult rfl

/-! ## Claim C4 -/

/-- The fallback expression inside `getSessionSummary` (find the first user
message of the one-message legacy page, truncate to 200 characters) equals
the spec-side `summaryFallback` characterization. -/
lemma summaryText_eq_fallback (lines : SessionFile) :
    (match (legacyMessagesOf false ((collectMessages lines).take 1)).find?
        (fun m => m.role = .user) with
      | none => "No summary available"
      | some m =>
        if strTake m.content 200 ≠ "" then strTake m.content 200
        else "No summary available")
      = summaryFallback lines := by
  cases hc : collectMessages lines with
  | nil => simp [legacyMessagesOf, summaryFallback, hc]
  | cons m rest =>
    simp only [summaryFallback, hc, List.head?_cons, List.take_succ_cons, List.take_zero]
    by_cases htool : strContainsSub (extractContentText m.rawContent) "[Tool"
    · simp [legacyMessagesOf, htool]
    · by_cases hrole : m.role = .user
      · simp only [legacyMessagesOf, List.map_cons, List.map_nil, List.filter]
        simp [htool, hrole]
      · simp [legacyMessagesOf, htool, hrole]

/-- C4 (amended): with no stored summary, the fallback inspects only the
*first parsed message* of the session (the legacy page is requested with
`limit 1`): the synthetic summary is the first 200 characters of that
message's flattened text exactly when that first message is a user message
whose text survives the legacy tool-call filter and is non-empty; in every
other case — including a session whose first message is an assistant
message even though a later user message exists — the summary is
`No summary available`. -/
theorem summary_fallback_uses_only_first_message (lines : SessionFile) (d sid : String)
    (sz : Nat) (info : SessionInfo)
    (h1 : getSessionInfo lines sid (decodeProjectPath d) = some info)
    (h2 : info.summary = "") :
    getSessionSummary
        ⟨[{ dirName := d, files := [{ name := sid ++ ".jsonl", lines := lines, size := sz }] }]⟩
        sid =
      .ok { sessionId := sid, summary := summaryFallback lines, project := info.project,
            messageCount := info.messageCount, startedAt := info.startedAt,
            lastActivityAt := info.lastActivityAt } := by
  have hs : ¬(lines.foldl infoStep {}).startedAt = "" := by
    intro hs
    rw [getSessionInfo] at h1
    simp [hs] at h1
  unfold getSessionSummary getSessionSummaryGo
  simp only [lookupFile, List.find?, decide_True, h1]
  rw [if_neg (by simp [h2])]
  unfold parseSessionFile
  rw [if_neg hs]
  simp only [legacyListOf, formatPage, List.drop_zero]
  rw [summaryText_eq_fallback]

/-- A session whose first message is an assistant message and whose second
message is the first user message, with no summary record. -/
def c4File : SessionFile :=
  [some { type := .assistant, timestamp := "100",
          message := some { role := "assistant", content := .str "yo" } },
    some { type := .user, timestamp := "200",
           message := some { role := "user", content := .str "hello" } }]

/-- Environment holding only `abc.jsonl` with `c4File`. -/
def c4Env : ClaudeEnv :=
  ⟨[{ dirName := "-p", files := [{ name := "abc.jsonl", lines := c4File, size := 9 }] }]⟩

/-- C4 fails as stated: this session has no summary record and a first user
message with text `hello`, yet `getSessionSummary` reports
`No summary available` (the fallback only ever sees the first message of the
session, here an assistant message). -/
theorem summary_fallback_misses_first_user_message :
    (getSessionSummary c4Env "abc").toOption.map SummaryResult.summary =
        some "No summary available" ∧
    "No summary available" ≠ strTake "hello" 200 := by
  exact ⟨rfl, by decide⟩

/-- Witness instantiating the amended C4 on a session whose only message is
a user message with text `hello tasks`. -/
def c4wFile : SessionFile :=
  [some { type := .user, timestamp := "100",
          message := some { role := "user", content := .str "hello tasks" } }]

/-- The Session View of `c4wFile`. -/
def c4wInfo : SessionInfo :=
  { sessionId := "abc", project := "p", messageCount := 1, startedAt := "100",
    lastActivityAt := "100", sizeBytes := 0 }

/-- Witness for the amended C4. -/
theorem summary_fallback_uses_only_first_message_witness :
    getSessionInfo c4wFile "abc" (decodeProjectPath "-p") = some c4wInfo ∧
    c4wInfo.summary = "" ∧
    getSessionSummary
        ⟨[{ dirName := "-p",
            files := [{ name := "abc" ++ ".jsonl", lines := c4wFile, size := 3 }] }]⟩ "abc" =
      .ok { sessionId := "abc", summary := summaryFallback c4wFile, project := c4wInfo.project,
            messageCount := c4wInfo.messageCount, startedAt := c4wInfo.startedAt,
            lastActivityAt := c4wInfo.lastActivityAt } :=
  ⟨by decide, rfl,
    summary_fallback_uses_only_first_message c4wFile "-p" "abc" 3 c4wInfo (by decide) rfl⟩

/-! ## Claim C5 -/

/-- A session whose `startedAt` (150) lies between the two clock instants
used in the counterexample. -/
def c5File : SessionFile :=
  [some { type := .user, timestamp := "150",
          message := some { role := "user", content := .str "hi" } }]

/-- Environment holding only `s1.jsonl` with `c5File`. -/
def c5Env : ClaudeEnv :=
  ⟨[{ dirName := "-p", files := [{ name := "s1.jsonl", lines := c5File, size := 7 }] }]⟩

/-- C5 fails as stated: with the optional date bounds left absent, the
absent `until` defaults to the call-time clock, so running `list_sessions`
twice over the unmodified `c5Env` — once at instant 100 and once at
instant 200 — yields different outputs (the session is excluded by the
first run and included by the second). -/
theorem list_sessions_differs_across_clock_instants :
    listSessions c5Env "" "" "" "date" "desc" 50 100 ≠
      listSessions c5Env "" "" "" "date" "desc" 50 200 := by
  decide

/-- C5 (amended): every view is a deterministic function of the file system,
the arguments, and the call-time clock; whenever the optional `until` bound
is supplied, the output of `list_sessions` and `search_session_content` is
independent of the clock, so two runs at different instants coincide. -/
theorem views_clock_independent_with_until (env : ClaudeEnv)
    (pf since untilArg sortBy sortOrder q roleArg : String) (limit now1 now2 : Int)
    (h : untilArg ≠ "") :
    listSessions env pf since untilArg sortBy sortOrder limit now1 =
        listSessions env pf since untilArg sortBy sortOrder limit now2 ∧
    searchSessionContent env q pf roleArg since untilArg limit now1 =
        searchSessionContent env q pf roleArg since untilArg limit now2 := by
  constructor <;> simp [listSessions, searchSessionContent, h]

/-- Witness instantiating the amended C5 on `c5Env` with `until` supplied. -/
theorem views_clock_independent_with_until_witness :
    ("300" : String) ≠ "" ∧
    (listSessions c5Env "" "" "300" "date" "desc" 50 100 =
        listSessions c5Env "" "" "300" "date" "desc" 50 200 ∧
      searchSessionContent c5Env "hi" "" "both" "" "300" 50 100 =
        searchSessionContent c5Env "hi" "" "both" "" "300" 50 200) :=
  ⟨by decide,
    views_clock_independent_with_until c5Env "" "" "300" "date" "desc" "hi" "both" 50 100 200
      (by decide)⟩

/-! ## Claim C6 -/

/-- C6: for a session whose recorded branch is (case-insensitively) a strict
superstring of the query — the lowercased branch contains the lowercased
query but differs from it — `find_sessions_by_branch` excludes the session
under `exactMatch = true` (equality required) and includes it under the
default `exactMatch = false` (containment suffices). Stated over an
environment holding that one session. -/
theorem branch_exact_match_excludes_superstring (lines : SessionFile)
    (d fname q : String) (sz : Nat)
    (hname : isSessionFileName fname = true)
    (hb : (lines.foldl infoStep {}).gitBranch ≠ "")
    (hst : (lines.foldl infoStep {}).startedAt ≠ "")
    (hne : lowerStr (lines.foldl infoStep {}).gitBranch ≠ lowerStr q)
    (hsub : strContainsSub (lowerStr (lines.foldl infoStep {}).gitBranch) (lowerStr q) = true) :
    (findSessionsByBranch ⟨[{ dirName := d, files := [{ name := fname, lines := lines, size := sz }] }]⟩
        q "" true 20).results = [] ∧
    (findSessionsByBranch ⟨[{ dirName := d, files := [{ name := fname, lines := lines, size := sz }] }]⟩
        q "" false 20).results.length = 1 := by
  constructor <;>
    simp [findSessionsByBranch, branchScanProjects, branchScanFiles, hname, hb, hst, hne, hsub,
      stableSortBy, insertLe]

/-- A one-session file on branch `feature/login`. -/
def c6File : SessionFile :=
  [some { type := .user, timestamp := "100", gitBranch := "feature/login",
          message := some { role := "user", content := .str "hi" } }]

/-- Witness instantiating C6: branch `feature/login` versus query `login`. -/
theorem branch_exact_match_excludes_superstring_witness :
    isSessionFileName "s1.jsonl" = true ∧
    (findSessionsByBranch ⟨[{ dirName := "-p", files := [{ name := "s1.jsonl", lines := c6File, size := 5 }] }]⟩
        "login" "" true 20).results = [] ∧
    (findSessionsByBranch ⟨[{ dirName := "-p", files := [{ name := "s1.jsonl", lines := c6File, size := 5 }] }]⟩
        "login" "" false 20).results.length = 1 :=
  ⟨by decide,
    branch_exact_match_excludes_superstring c6File "-p" "s1.jsonl" "login" 5 (by decide)
      (by decide) (by decide) (by decide) (by decide)⟩

/-! ## Claim C8 -/

/-- Success flag of a response (`true` exactly when no error envelope is
produced). -/
def exceptIsOk {ε α : Type} : Except ε α → Bool
  | .ok _ => true
  | .error _ => false

/-- Whether `parseSessionFile` errors depends only on the file, never on the
pagination arguments. -/
lemma parseSessionFile_isOk_independent (lines : SessionFile) (sid proj : String)
    (fmt : OutputFormat) (itc : Bool) (l o l' o' : Nat) :
    exceptIsOk (parseSessionFile lines sid proj fmt itc l o) =
      exceptIsOk (parseSessionFile lines sid proj fmt itc l' o') := by
  unfold parseSessionFile
  by_cases hs : (lines.foldl infoStep {}).startedAt = "" <;> simp [hs, exceptIsOk]

/-- Whether `getSession` errors depends only on the environment, never on
the pagination arguments. -/
lemma getSessionGo_isOk_independent (ps : List ProjectDir) (sid : String)
    (fmt : OutputFormat) (itc : Bool) (l o l' o' : Nat) :
    exceptIsOk (getSessionGo sid fmt itc l o ps) =
      exceptIsOk (getSessionGo sid fmt itc l' o' ps) := by
  induction ps with
  | nil => rfl
  | cons p rest ih =>
    simp only [getSessionGo]
    cases hlk : lookupFile p (sid ++ ".jsonl") with
    | none => exact ih
    | some fe =>
      have hpe :=
        parseSessionFile_isOk_independent fe.lines sid (decodeProjectPath p.dirName) fmt itc
          l o l' o'
      cases hp : parseSessionFile fe.lines sid (decodeProjectPath p.dirName) fmt itc l o with
      | ok r =>
        cases hp' : parseSessionFile fe.lines sid (decodeProjectPath p.dirName) fmt itc l' o' with
        | ok r' => simp [hp, hp', exceptIsOk]
        | error e => rw [hp, hp'] at hpe; simp [exceptIsOk] at hpe
      | error e =>
        cases hp' : parseSessionFile fe.lines sid (decodeProjectPath p.dirName) fmt itc l' o' with
        | ok r' => rw [hp, hp'] at hpe; simp [exceptIsOk] at hpe
        | error e' => simp only [hp, hp']; exact ih

/-- Whether `get_session_timeline` errors depends only on the environment,
never on the pagination arguments. -/
lemma getSessionTimelineGo_isOk_independent (ps : List ProjectDir) (sid : String) (ic : Bool)
    (fmt : String) (l o l' o' : Int) :
    exceptIsOk (getSessionTimelineGo sid ic fmt l o ps) =
      exceptIsOk (getSessionTimelineGo sid ic fmt l' o' ps) := by
  induction ps with
  | nil => rfl
  | cons p rest ih =>
    simp only [getSessionTimelineGo]
    cases hlk : lookupFile p (sid ++ ".jsonl") with
    | none => exact ih
    | some fe =>
      by_cases hs : (fe.lines.foldl (timelineStep ic) {}).startedAt = "" <;> simp [hs, exceptIsOk]

/-- Whether `get_agent_activity` errors depends only on the environment,
never on the pagination arguments. -/
lemma getAgentActivityGo_isOk_independent (ps : List ProjectDir) (sid : String)
    (l o l' o' : Int) :
    exceptIsOk (getAgentActivityGo sid l o ps) =
      exceptIsOk (getAgentActivityGo sid l' o' ps) := by
  induction ps with
  | nil => rfl
  | cons p rest ih =>
    simp only [getAgentActivityGo]
    cases hlk : lookupFile p (sid ++ ".jsonl") with
    | none => exact ih
    | some fe => rfl

/-- C8: out-of-range pagination arguments are clamped, not rejected: a limit
below 1 comes back as 1, a limit above the cap (200 for `get_session` and
`get_session_timeline`, 100 for `get_agent_activity`) comes back as the cap,
a negative offset comes back as 0, the clamped values always lie in range,
and whether any of the three handlers returns an error envelope does not
depend on the pagination arguments at all. -/
theorem pagination_arguments_clamped_not_rejected (env : ClaudeEnv) (sid : String)
    (format : OutputFormat) (itc ic : Bool) (tfmt : String) (limit offset : Int) :
    (limit < 1 → validateLimit limit 200 = 1 ∧ validateLimit limit 100 = 1) ∧
    (limit > 200 → validateLimit limit 200 = 200) ∧
    (limit > 100 → validateLimit limit 100 = 100) ∧
    (offset < 0 → validateOffset offset = 0) ∧
    (1 ≤ validateLimit limit 200 ∧ validateLimit limit 200 ≤ 200) ∧
    (1 ≤ validateLimit limit 100 ∧ validateLimit limit 100 ≤ 100) ∧
    0 ≤ validateOffset offset ∧
    exceptIsOk (getSessionHandler env sid format itc limit offset) =
      exceptIsOk (getSessionHandler env sid format itc 50 0) ∧
    exceptIsOk (getSessionTimeline env sid ic tfmt limit offset) =
      exceptIsOk (getSessionTimeline env sid ic tfmt 50 0) ∧
    exceptIsOk (getAgentActivity env sid limit offset) =
      exceptIsOk (getAgentActivity env sid 20 0) := by
  refine ⟨?_, ?_, ?_, ?_, ?_, ?_, ?_, ?_, ?_, ?_⟩
  · intro h
    constructor <;> (simp [validateLimit]; try omega)
  · intro h
    simp [validateLimit]; try omega
  · intro h
    simp [validateLimit]; try omega
  · intro h
    simp [validateOffset]; try omega
  · constructor <;> (simp [validateLimit]; try omega)
  · constructor <;> (simp [validateLimit]; try omega)
  · simp [validateOffset]
  · exact getSessionGo_isOk_independent env.projects sid format itc _ _ _ _
  · exact getSessionTimelineGo_isOk_independent env.projects sid ic tfmt _ _ _ _
  · exact getAgentActivityGo_isOk_independent env.projects sid _ _ _ _

/-- Witness instantiating C8 at `limit = -5, offset = -3` on `c5Env`. -/
theorem pagination_arguments_clamped_not_rejected_witness :
    validateLimit (-5) 200 = 1 ∧ validateLimit (-5) 100 = 1 ∧ validateOffset (-3) = 0 ∧
    exceptIsOk (getAgentActivity c5Env "s1" (-5) (-3)) =
      exceptIsOk (getAgentActivity c5Env "s1" 20 0) := by
  have h :=
    pagination_arguments_clamped_not_rejected c5Env "s1" .standard false false "standard"
      (-5) (-3)
  exact ⟨(h.1 (by decide)).1, (h.1 (by decide)).2, h.2.2.2.1 (by decide),
    h.2.2.2.2.2.2.2.2.2⟩

/-! ## Claim C9 -/

/-- The per-line search loop never grows the result list beyond `limit`. -/
lemma searchFileLines_length_le (queryLower query roleArg : String) (sinceMs untilMs : Int)
    (sid proj : String) (limit : Int) (lines : SessionFile)
    (results : List ContentSearchResult) (h : (results.length : Int) ≤ limit) :
    ((searchFileLines queryLower query roleArg sinceMs untilMs sid proj limit results
        lines).length : Int) ≤ limit := by
  induction lines generalizing results with
  | nil => exact h
  | cons line rest ih =>
    by_cases hge : (results.length : Int) ≥ limit
    · simpa [searchFileLines, hge] using h
    · cases line with
      | none =>
        simp only [searchFileLines, if_neg hge]
        exact ih results h
      | some msg =>
        simp only [searchFileLines, if_neg hge]
        apply ih
        split_ifs
        · cases hm : msg.message with
          | none => exact h
          | some mm =>
            dsimp only
            split_ifs with hq
            · simp only [List.length_append, List.length_cons, List.length_nil]
              push_cast
              omega
            · exact h
        · exact h

/-- The per-file search loop never grows the result list beyond `limit`. -/
lemma searchProjectFiles_length_le (queryLower query roleArg : String) (sinceMs untilMs : Int)
    (proj : String) (limit : Int) (files : List FileEntry)
    (results : List ContentSearchResult) (h : (results.length : Int) ≤ limit) :
    ((searchProjectFiles queryLower query roleArg sinceMs untilMs proj limit results
        files).length : Int) ≤ limit := by
  induction files generalizing results with
  | nil => exact h
  | cons fe rest ih =>
    simp only [searchProjectFiles]
    split_ifs with hname hge
    · exact ih results h
    · exact searchFileLines_length_le queryLower query roleArg sinceMs untilMs
        (stripJsonl fe.name) proj limit fe.lines results h
    · exact ih _ (searchFileLines_length_le queryLower query roleArg sinceMs untilMs
        (stripJsonl fe.name) proj limit fe.lines results h)

/-- The per-project search loop never grows the result list beyond `limit`. -/
lemma searchProjects_length_le (queryLower query roleArg projectFilter : String)
    (sinceMs untilMs : Int) (limit : Int) (ps : List ProjectDir)
    (results : List ContentSearchResult) (h : (results.length : Int) ≤ limit) :
    ((searchProjects queryLower query roleArg projectFilter sinceMs untilMs limit results
        ps).length : Int) ≤ limit := by
  induction ps generalizing results with
  | nil => exact h
  | cons p rest ih =>
    simp only [searchProjects]
    split_ifs with hskip hge
    · exact ih results h
    · exact searchProjectFiles_length_le queryLower query roleArg sinceMs untilMs
        (decodeProjectPath p.dirName) limit p.files results h
    · exact ih _ (searchProjectFiles_length_le queryLower query roleArg sinceMs untilMs
        (decodeProjectPath p.dirName) limit p.files results h)

/-- One matching single-message session on branch `main` with the given
timestamp. -/
def c9f (ts : String) : SessionFile :=
  [some { type := .user, timestamp := ts, gitBranch := "main",
          message := some { role := "user", content := .str "hi" } }]

/-- A project with three sessions on branch `main`. -/
def c9Env : ClaudeEnv :=
  ⟨[{ dirName := "-p",
      files := [{ name := "s1.jsonl", lines := c9f "100", size := 1 },
                { name := "s2.jsonl", lines := c9f "200", size := 1 },
                { name := "s3.jsonl", lines := c9f "300", size := 1 }] }]⟩

/-- C9: the search/find `total` counts accumulated (not existing) matches:
`search_session_content` stops accumulating at `limit`, so its `total` never
exceeds a non-negative `limit`; `find_sessions_by_branch` with `limit = 1`
on three matching sessions stops the file scan at `2 * limit = 2`
accumulated rows, reports `total = 2` — more than the single returned row —
while the environment actually holds 3 matching sessions. -/
theorem totals_count_accumulated_results :
    (∀ (env : ClaudeEnv) (q pf ra since untilArg : String) (limit now : Int), 0 ≤ limit →
      ((searchSessionContent env q pf ra since untilArg limit now).total : Int) ≤ limit) ∧
    (findSessionsByBranch c9Env "main" "" false 1).total = 2 ∧
    (findSessionsByBranch c9Env "main" "" false 1).results.length = 1 ∧
    branchMatchCount c9Env (lowerStr "main") false = 3 := by
  refine ⟨?_, by decide, by decide, by decide⟩
  intro env q pf ra since untilArg limit now hl
  exact searchProjects_length_le (lowerStr q) q ra pf _ _ limit env.projects [] (by simpa)

/-- Witness instantiating the search half of C9 at `limit = 20`. -/
theorem totals_count_accumulated_results_witness :
    (0 : Int) ≤ 20 ∧
    ((searchSessionContent c5Env "hi" "" "both" "" "" 20 300).total : Int) ≤ 20 :=
  ⟨by decide, totals_count_accumulated_results.1 c5Env "hi" "" "both" "" "" 20 300 (by decide)⟩

/-! ## Claim C10 -/

/-- Swapping the two arguments of an `x1 > x2 ? id1 : id2` choice changes
the chosen name exactly on a tie (for distinct names). -/
lemma pick2Swap {A : Type} [LinearOrder A] (x y : A) (id1 id2 : String) (hne : id1 ≠ id2) :
    ((if y > x then id2 else id1) ≠ if x > y then id1 else id2) ↔ x = y := by
  rcases lt_trichotomy x y with hlt | heqv | hgt
  · rw [if_pos hlt, if_neg (not_lt.mpr hlt.le)]
    simp [hlt.ne]
  · rw [if_neg (by simp [heqv]), if_neg (by simp [heqv])]
    simp [heqv, hne]
  · rw [if_neg (not_lt.mpr hgt.le), if_pos hgt]
    simp [hgt.ne.symm]

/-- C10: every comparison field of `compare_sessions` built by
`x1 > x2 ? id1 : id2` names `sessionId2` on a tie (equal `durationMs`, equal
total message count, equal total tool-call count); for distinct session
ids, swapping the two arguments changes that field exactly in the tied
case; and the tool-set fields swap consistently: `uniqueToSession1` and
`uniqueToSession2` exchange (as lists), and `sharedTools` keeps the same
elements. -/
theorem comparison_ties_name_session2 (s1 s2 : SessionStats) (includeFiles : Bool) :
    (s1.durationMs = s2.durationMs →
      (compareCore s1 s2 includeFiles).longerSession = s2.sessionId) ∧
    (s1.totalMessages = s2.totalMessages →
      (compareCore s1 s2 includeFiles).moreMessages = s2.sessionId) ∧
    (s1.totalToolCalls = s2.totalToolCalls →
      (compareCore s1 s2 includeFiles).moreToolCalls = s2.sessionId) ∧
    (s1.sessionId ≠ s2.sessionId →
      (((compareCore s2 s1 includeFiles).longerSession ≠
          (compareCore s1 s2 includeFiles).longerSession ↔ s1.durationMs = s2.durationMs) ∧
        ((compareCore s2 s1 includeFiles).moreMessages ≠
          (compareCore s1 s2 includeFiles).moreMessages ↔ s1.totalMessages = s2.totalMessages) ∧
        ((compareCore s2 s1 includeFiles).moreToolCalls ≠
          (compareCore s1 s2 includeFiles).moreToolCalls ↔
            s1.totalToolCalls = s2.totalToolCalls))) ∧
    (compareCore s2 s1 includeFiles).uniqueToSession1 =
      (compareCore s1 s2 includeFiles).uniqueToSession2 ∧
    (compareCore s2 s1 includeFiles).uniqueToSession2 =
      (compareCore s1 s2 includeFiles).uniqueToSession1 ∧
    (∀ t, t ∈ (compareCore s2 s1 includeFiles).sharedTools ↔
      t ∈ (compareCore s1 s2 includeFiles).sharedTools) := by
  refine ⟨?_, ?_, ?_, ?_, ?_, ?_, ?_⟩
  · intro h; simp [compareCore, h]
  · intro h; simp [compareCore, h]
  · intro h; simp [compareCore, h]
  · intro hne
    exact ⟨pick2Swap s1.durationMs s2.durationMs s1.sessionId s2.sessionId hne,
      pick2Swap s1.totalMessages s2.totalMessages s1.sessionId s2.sessionId hne,
      pick2Swap s1.totalToolCalls s2.totalToolCalls s1.sessionId s2.sessionId hne⟩
  · simp [compareCore]
  · simp [compareCore]
  · intro t
    simp [compareCore, toolKeys]
    tauto

/-- Stats of a session with two tools (`Read`, `Edit`). -/
def c10s1 : SessionStats :=
  { sessionId := "a", project := "p", startedAt := "100", endedAt := "200", durationMs := 100,
    durationFormatted := "0s", userMessages := 1, assistantMessages := 1, totalMessages := 2,
    toolsUsed := [("Read", 1), ("Edit", 1)], uniqueToolCount := 2, totalToolCalls := 2,
    agentSpawns := [] }

/-- Stats of a second session tying every compared quantity, with tools
(`Read`, `Bash`). -/
def c10s2 : SessionStats :=
  { sessionId := "b", project := "p", startedAt := "300", endedAt := "400", durationMs := 100,
    durationFormatted := "0s", userMessages := 2, assistantMessages := 0, totalMessages := 2,
    toolsUsed := [("Read", 2)], uniqueToolCount := 1, totalToolCalls := 2,
    agentSpawns := [] }

/-- Witness instantiating C10 on fully tied stats with distinct ids. -/
theorem comparison_ties_name_session2_witness :
    (compareCore c10s1 c10s2 false).longerSession = c10s2.sessionId ∧
    (compareCore c10s1 c10s2 false).moreMessages = c10s2.sessionId ∧
    (compareCore c10s1 c10s2 false).moreToolCalls = c10s2.sessionId ∧
    ((compareCore c10s2 c10s1 false).longerSession ≠
      (compareCore c10s1 c10s2 false).longerSession ↔ c10s1.durationMs = c10s2.durationMs) := by
  have h := comparison_ties_name_session2 c10s1 c10s2 false
  exact ⟨h.1 (by decide), h.2.1 (by decide), h.2.2.1 (by decide),
    (h.2.2.2.1 (by decide)).1⟩
